import Mathlib

/-!
Verification of the ZeusAI real-time call audio engine
(`backend/services/audio_utils.py`, `backend/main.py`).

Shallow embedding conventions:
* Python byte strings are `List Nat` with every element `< 256`.
* Python `int` is `Int` (arbitrary precision, as in CPython).
* `struct.pack "<h"` / `struct.unpack "<h"` are `intToLE16` / `le16ToInt`
  (two's-complement 16-bit little-endian).
* Wall-clock time (`time.time()`) is `ℚ`; an event carries the instant at
  which the surrounding loop iteration observes the clock.
* Floating-point energy / pacing arithmetic is idealised over `ℚ`;
  `math.sin` is modelled by an abstract oracle `s : ℚ → ℚ`, where `s x`
  stands for `sin (2*pi*x)`.
-/

set_option maxRecDepth 10000

namespace ZeusAI

/-- Python `~n & 0xFF` for a nonnegative integer `n`: bitwise complement
truncated to one byte, i.e. `(-n-1) mod 256 = 255 - n % 256`. -/
def invByte (n : Nat) : Nat := 255 - n % 256

/-- `audio_utils.mulaw_to_linear`: decode a single μ-law byte to a signed
16-bit linear PCM sample.  Source:
`b = ~b & 0xFF; sign = b & 0x80; exponent = (b >> 4) & 0x07;
mantissa = b & 0x0F; magnitude = ((mantissa << 3) + 0x84) << exponent;
magnitude -= 0x84; return -magnitude if sign else magnitude`. -/
def mulaw_to_linear (b : Nat) : Int :=
  let c := invByte b
  let sign := c &&& 0x80
  let exponent := (c >>> 4) &&& 0x07
  let mantissa := c &&& 0x0F
  let magnitude : Int := (((((mantissa <<< 3) + 0x84) <<< exponent) : Nat) : Int) - 0x84
  if sign ≠ 0 then -magnitude else magnitude

/-- `struct.pack "<h"`: one signed sample to two's-complement 16-bit
little-endian bytes. -/
def intToLE16 (s : Int) : List Nat :=
  let u := (s % 65536).toNat
  [u % 256, u / 256]

/-- `struct.unpack "<h"` of one sample: two little-endian bytes to a signed
16-bit value. -/
def le16ToInt (lo hi : Nat) : Int :=
  let u := lo % 256 + 256 * (hi % 256)
  if u < 32768 then (u : Int) else (u : Int) - 65536

/-- `struct.unpack "<{n}h"`: a byte string to its list of signed 16-bit
samples; a trailing odd byte is dropped (the source slices
`data[:num_samples*2]`). -/
def unpackLE16 : List Nat → List Int
  | lo :: hi :: rest => le16ToInt lo hi :: unpackLE16 rest
  | _ => []

/-- `audio_utils.mulaw_to_pcm_bytes`: decode a μ-law byte string to signed
16-bit little-endian PCM bytes. -/
def mulaw_to_pcm_bytes (mulaw : List Nat) : List Nat :=
  (mulaw.map fun b => intToLE16 (mulaw_to_linear b)).flatten

/-- The exponent search of `audio_utils._linear_to_mulaw`:
`exponent = 7; for exp in range(7, -1, -1): if val & (0x80 << exp):
exponent = exp; break` — first match scanning 7 down to 0, default 7. -/
def findExponent (val : Nat) : Nat :=
  (([7, 6, 5, 4, 3, 2, 1, 0] : List Nat).find? fun e => val &&& (0x80 <<< e) != 0).getD 7

/-- The clamp-and-bias step of `audio_utils._linear_to_mulaw`:
`val = abs(sample); if val > 32635: val = 32635; val += 132`. -/
def muClampBias (sample : Int) : Nat :=
  let val0 : Int := if sample ≥ 0 then sample else -sample
  let val1 : Int := if val0 > 32635 then 32635 else val0
  (val1 + 132).toNat

/-- `audio_utils._linear_to_mulaw`: encode a signed 16-bit linear PCM sample
to a μ-law byte. -/
def linear_to_mulaw (sample : Int) : Nat :=
  let sign : Nat := if sample < 0 then 0x80 else 0
  let val := muClampBias sample
  let exponent := findExponent val
  let mantissa := (val >>> (exponent + 3)) &&& 0x0F
  invByte (sign ||| (exponent <<< 4) ||| mantissa)

/-- Reference G.711 μ-law expansion, written from the specification's words:
invert all 8 bits, sign = bit 7, exponent = bits 4-6, mantissa = bits 0-3,
magnitude `((mantissa<<3)+0x84)<<exponent - 0x84`, negated when the sign bit
is set.  Formulated independently of `mulaw_to_linear` (test-bit and
divide/mod arithmetic instead of masks and shifts). -/
def decodeMuLawByteSpec (b : Nat) : Int :=
  let c := 255 - b % 256
  let sign := c.testBit 7
  let exponent := c / 16 % 8
  let mantissa := c % 16
  let magnitude : Int := (((mantissa * 8 + 0x84) * 2 ^ exponent : Nat) : Int) - 0x84
  if sign then -magnitude else magnitude

/-- C2: for every byte `b` in 0..255, `mulaw_to_linear` returns exactly the
standard G.711 expansion — invert all bits, sign = bit 7, exponent =
bits 4-6, mantissa = bits 0-3, magnitude `((mantissa<<3)+0x84)<<exponent -
0x84`, negated when the sign bit is set — bit-for-bit equal to the
reference formulation. -/
theorem C2_decode_matches_reference :
    ∀ b < 256, mulaw_to_linear b = decodeMuLawByteSpec b := by decide

/-- Witness for C2 at byte 0x4B. -/
theorem C2_decode_matches_reference_witness :
    (0x4B : Nat) < 256 ∧ mulaw_to_linear 0x4B = decodeMuLawByteSpec 0x4B :=
  ⟨by decide, C2_decode_matches_reference 0x4B (by decide)⟩

/-- The μ-law byte produced by re-encoding the decoded value of byte `b`. -/
def muRoundTrip (b : Nat) : Nat := linear_to_mulaw (mulaw_to_linear b)

/-- The decoder's quantization step at byte `b`'s exponent: consecutive
mantissas at exponent `e` decode `8 <<< e` apart. -/
def muQuantStep (b : Nat) : Int := ((8 <<< ((invByte b >>> 4) &&& 0x07) : Nat) : Int)

/-- C3: for every byte `b` in 0..255 the round trip
`linear_to_mulaw (mulaw_to_linear b)` is within G.711 quantization error of
`b` — the decoded magnitudes differ by at most the quantization step at
`b`'s exponent — while the round trip is lossy rather than the identity
(at `b = 0x7F`, negative zero re-encodes as the positive zero code 0xFF). -/
theorem C3_roundtrip_within_quantization :
    (∀ b < 256,
        |mulaw_to_linear (muRoundTrip b) - mulaw_to_linear b| ≤ muQuantStep b) ∧
      ¬ (∀ b < 256, muRoundTrip b = b) := by
  constructor
  · decide
  · intro h
    exact absurd (h 0x7F (by decide)) (by decide)

/-- The Python byte complement always yields a single byte. -/
lemma invByte_le (n : Nat) : invByte n ≤ 255 := by
  unfold invByte
  omega

/-- The clamp-and-bias value of any sample lies in `[132, 32767]`. -/
lemma muClampBias_bounds (s : Int) : 132 ≤ muClampBias s ∧ muClampBias s < 32768 := by
  simp only [muClampBias]
  split_ifs <;> omega

/-- If bit `k` of `v` is clear (as a mask test), so is the corresponding
binary digit of `v / p` for `p = 2 ^ k`. -/
lemma div_bit_zero_of_and_eq_zero (v k p : Nat) (hp : p = 2 ^ k)
    (h : v &&& p = 0) : v / p % 2 = 0 := by
  subst hp
  have hb : v.testBit k = false := by
    have htwo := Nat.and_two_pow v k
    cases hv : v.testBit k with
    | false => rfl
    | true =>
      rw [hv] at htwo
      simp at htwo
      rw [h] at htwo
      have := Nat.two_pow_pos k
      omega
  rw [Nat.testBit_to_div_mod] at hb
  simp at hb
  omega

/-- The descending exponent search of the encoder always finds a set bit on
the clamped, biased magnitude range `[132, 32768)`. -/
lemma findExponent_finds (v : Nat) (h1 : 132 ≤ v) (h2 : v < 32768) :
    v &&& (0x80 <<< findExponent v) ≠ 0 := by
  unfold findExponent
  cases hf : ([7, 6, 5, 4, 3, 2, 1, 0] : List Nat).find?
      (fun e => v &&& (0x80 <<< e) != 0) with
  | some e =>
    have hp := List.find?_some hf
    simp only [hf, Option.getD_some]
    simpa using hp
  | none =>
    exfalso
    have hall := List.find?_eq_none.mp hf
    have d7 : v / 128 % 2 = 0 :=
      div_bit_zero_of_and_eq_zero v 7 128 (by norm_num)
        (by simpa using hall 0 (by simp))
    have d8 : v / 256 % 2 = 0 :=
      div_bit_zero_of_and_eq_zero v 8 256 (by norm_num)
        (by simpa using hall 1 (by simp))
    have d9 : v / 512 % 2 = 0 :=
      div_bit_zero_of_and_eq_zero v 9 512 (by norm_num)
        (by simpa using hall 2 (by simp))
    have d10 : v / 1024 % 2 = 0 :=
      div_bit_zero_of_and_eq_zero v 10 1024 (by norm_num)
        (by simpa using hall 3 (by simp))
    have d11 : v / 2048 % 2 = 0 :=
      div_bit_zero_of_and_eq_zero v 11 2048 (by norm_num)
        (by simpa using hall 4 (by simp))
    have d12 : v / 4096 % 2 = 0 :=
      div_bit_zero_of_and_eq_zero v 12 4096 (by norm_num)
        (by simpa using hall 5 (by simp))
    have d13 : v / 8192 % 2 = 0 :=
      div_bit_zero_of_and_eq_zero v 13 8192 (by norm_num)
        (by simpa using hall 6 (by simp))
    have d14 : v / 16384 % 2 = 0 :=
      div_bit_zero_of_and_eq_zero v 14 16384 (by norm_num)
        (by simpa using hall 7 (by simp))
    omega

/-- C10: `_linear_to_mulaw` is total on every 16-bit signed sample,
including -32768: after the magnitude is clamped to 32635 and biased by
132, the descending exponent search always finds a set bit (so it
terminates with a valid exponent), and the returned value is always in
0..255, a valid single μ-law byte; no input errors. -/
theorem C10_encoder_total_on_int16 (s : Int)
    (hlo : -32768 ≤ s) (hhi : s ≤ 32767) :
    linear_to_mulaw s ≤ 255 ∧
      muClampBias s &&& (0x80 <<< findExponent (muClampBias s)) ≠ 0 := by
  refine ⟨?_, ?_⟩
  · unfold linear_to_mulaw
    exact invByte_le _
  · have hb := muClampBias_bounds s
    exact findExponent_finds (muClampBias s) hb.1 hb.2

/-- Witness for C10 at the edge case `s = -32768`. -/
theorem C10_encoder_total_on_int16_witness :
    (-32768 : Int) ≤ -32768 ∧ (-32768 : Int) ≤ 32767 ∧
      (linear_to_mulaw (-32768) ≤ 255 ∧
        muClampBias (-32768) &&&
            (0x80 <<< findExponent (muClampBias (-32768))) ≠ 0) :=
  ⟨by decide, by decide,
    C10_encoder_total_on_int16 (-32768) (by decide) (by decide)⟩

/-! ### DTMF tone generation (`audio_utils.generate_dtmf_tone`) -/

/-- Python `int()` on a rational value: truncation toward zero. -/
def intTrunc (x : ℚ) : Int := if 0 ≤ x then ⌊x⌋ else ⌈x⌉

/-- Truncation toward zero, clamped below at 0 as `range(int(x))` does for a
negative argument. -/
def natTrunc (x : ℚ) : Nat := (intTrunc x).toNat

/-- `audio_utils._DTMF_FREQS`: the ITU-T DTMF (low, high) frequency pair
table, keyed by the twelve standard keys. -/
def DTMF_FREQS (digit : String) : Option (Nat × Nat) :=
  if digit = "1" then some (697, 1209)
  else if digit = "2" then some (697, 1336)
  else if digit = "3" then some (697, 1477)
  else if digit = "4" then some (770, 1209)
  else if digit = "5" then some (770, 1336)
  else if digit = "6" then some (770, 1477)
  else if digit = "7" then some (852, 1209)
  else if digit = "8" then some (852, 1336)
  else if digit = "9" then some (852, 1477)
  else if digit = "*" then some (941, 1209)
  else if digit = "0" then some (941, 1336)
  else if digit = "#" then some (941, 1477)
  else none

/-- The twelve valid DTMF keys. -/
def dtmfKeys : List String :=
  ["1", "2", "3", "4", "5", "6", "7", "8", "9", "*", "0", "#"]

/-- `struct.pack "<{n}h"`: a sample list to 16-bit little-endian bytes. -/
def pack16le (l : List Int) : List Nat := (l.map intToLE16).flatten

/-- `audio_utils.generate_dtmf_tone`, parametrised by the sine oracle
`sine` (where `sine x` stands for `math.sin(2*pi*x)`; note that with
`t = i / sample_rate` the source's argument `2*pi*f*t` is `2*pi*(f*i/rate)`).
For `i` in `range(int(rate*duration))` the sample is
`int((sin1 + sin2) / 2 * (32767*amplitude))`, followed by
`int(rate*gap)` zero samples, packed 16-bit little-endian.
An unknown digit logs a warning and returns the empty byte string. -/
def generate_dtmf_tone (sine : ℚ → ℚ) (digit : String) (sample_rate : Nat)
    (duration gap amplitude : ℚ) : List Nat :=
  match DTMF_FREQS digit with
  | none => []
  | some (f1, f2) =>
    let max_val : ℚ := 32767 * amplitude
    let num_tone_samples := natTrunc ((sample_rate : ℚ) * duration)
    let num_gap_samples := natTrunc ((sample_rate : ℚ) * gap)
    let tone := (List.range num_tone_samples).map fun (i : Nat) =>
      intTrunc ((sine ((f1 : ℚ) * (i : ℚ) / (sample_rate : ℚ)) +
        sine ((f2 : ℚ) * (i : ℚ) / (sample_rate : ℚ))) / 2 * max_val)
    pack16le (tone ++ List.replicate num_gap_samples 0)

/-- `audio_utils.generate_dtmf_tone_mulaw`: the PCM tone re-encoded sample
by sample to μ-law bytes; empty when the PCM synthesis produced nothing. -/
def generate_dtmf_tone_mulaw (sine : ℚ → ℚ) (digit : String)
    (sample_rate : Nat) (duration gap amplitude : ℚ) : List Nat :=
  let pcm := generate_dtmf_tone sine digit sample_rate duration gap amplitude
  if pcm = [] then [] else (unpackLE16 pcm).map linear_to_mulaw

/-- Specification-side sample list for C8, written from the claim's words:
`int(sampleRate*duration)` samples, the `i`-th being the sum of the two
sine waves at the digit's frequency pair, scaled by amplitude. -/
def dtmfSamplesSpec (sine : ℚ → ℚ) (f1 f2 sample_rate : Nat)
    (duration amplitude : ℚ) : List Int :=
  (List.range (natTrunc ((sample_rate : ℚ) * duration))).map fun (i : Nat) =>
    intTrunc ((sine ((f1 : ℚ) * (i : ℚ) / (sample_rate : ℚ)) +
      sine ((f2 : ℚ) * (i : ℚ) / (sample_rate : ℚ))) / 2 * (32767 * amplitude))

/-- One packed sample unpacks to itself on the 16-bit signed range. -/
lemma le16ToInt_intToLE16 (x : Int) (h1 : -32768 ≤ x) (h2 : x ≤ 32767) :
    le16ToInt ((x % 65536).toNat % 256) ((x % 65536).toNat / 256) = x := by
  simp only [le16ToInt]
  split <;> omega

lemma pack16le_cons (x : Int) (l : List Int) :
    pack16le (x :: l) = intToLE16 x ++ pack16le l := by
  simp [pack16le]

lemma unpackLE16_cons₂ (a b : Nat) (t : List Nat) :
    unpackLE16 (a :: b :: t) = le16ToInt a b :: unpackLE16 t := rfl

/-- Packing then unpacking 16-bit samples is the identity on in-range
sample lists. -/
lemma unpackLE16_pack16le :
    ∀ l : List Int, (∀ x ∈ l, -32768 ≤ x ∧ x ≤ 32767) →
      unpackLE16 (pack16le l) = l := by
  intro l
  induction l with
  | nil => intro _; rfl
  | cons x rest ih =>
    intro h
    have hx := h x (by simp)
    have hrest := fun y hy => h y (List.mem_cons_of_mem _ hy)
    rw [pack16le_cons]
    have hsplit : intToLE16 x ++ pack16le rest =
        ((x % 65536).toNat % 256) :: ((x % 65536).toNat / 256) :: pack16le rest := by
      simp [intToLE16]
    rw [hsplit, unpackLE16_cons₂, le16ToInt_intToLE16 x hx.1 hx.2, ih hrest]

/-- Truncation toward zero stays within a symmetric integer bound. -/
lemma intTrunc_bounds (v : ℚ) (b : Nat) (h : |v| ≤ (b : ℚ)) :
    -(b : Int) ≤ intTrunc v ∧ intTrunc v ≤ (b : Int) := by
  rw [abs_le] at h
  unfold intTrunc
  by_cases hv : 0 ≤ v
  · rw [if_pos hv]
    have hfl : ((⌊v⌋ : ℚ)) ≤ v := Int.floor_le v
    have h0 : (0 : Int) ≤ ⌊v⌋ := Int.floor_nonneg.mpr hv
    constructor
    · omega
    · have hq : (⌊v⌋ : ℚ) ≤ (b : ℚ) := le_trans hfl h.2
      exact_mod_cast hq
  · rw [if_neg hv]
    have hcl : v ≤ (⌈v⌉ : ℚ) := Int.le_ceil v
    have h0 : ⌈v⌉ ≤ (0 : Int) := Int.ceil_le.mpr (by push_cast; linarith)
    constructor
    · have hq : (-(b : ℚ)) ≤ (⌈v⌉ : ℚ) := le_trans h.1 hcl
      exact_mod_cast hq
    · omega

/-- Every sample of the specified tone list is a valid 16-bit value. -/
lemma dtmfSamplesSpec_in_range (sine : ℚ → ℚ) (f1 f2 sample_rate : Nat)
    (duration amplitude : ℚ) (hsine : ∀ x, |sine x| ≤ 1)
    (hamp0 : 0 ≤ amplitude) (hamp1 : amplitude ≤ 1) :
    ∀ x ∈ dtmfSamplesSpec sine f1 f2 sample_rate duration amplitude,
      -32768 ≤ x ∧ x ≤ 32767 := by
  intro x hx
  simp only [dtmfSamplesSpec, List.mem_map] at hx
  obtain ⟨i, _, hix⟩ := hx
  set v : ℚ := (sine ((f1 : ℚ) * i / sample_rate) +
    sine ((f2 : ℚ) * i / sample_rate)) / 2 * (32767 * amplitude) with hv
  have hb : |v| ≤ (32767 : ℚ) := by
    have habs : |(sine ((f1 : ℚ) * i / sample_rate) +
        sine ((f2 : ℚ) * i / sample_rate)) / 2| ≤ 1 := by
      rw [abs_div]
      have := abs_add (sine ((f1 : ℚ) * i / sample_rate))
        (sine ((f2 : ℚ) * i / sample_rate))
      have h1 := hsine ((f1 : ℚ) * i / sample_rate)
      have h2 := hsine ((f2 : ℚ) * i / sample_rate)
      rw [show |(2 : ℚ)| = 2 by norm_num]
      linarith
    have hampabs : |32767 * amplitude| ≤ (32767 : ℚ) := by
      rw [abs_mul, show |(32767 : ℚ)| = 32767 by norm_num, abs_of_nonneg hamp0]
      nlinarith
    calc |v| = |(sine ((f1 : ℚ) * i / sample_rate) +
          sine ((f2 : ℚ) * i / sample_rate)) / 2| * |32767 * amplitude| := by
            rw [hv, abs_mul]
      _ ≤ 1 * 32767 := by
            exact mul_le_mul habs hampabs (abs_nonneg _) (by norm_num)
      _ = 32767 := by norm_num
  have := intTrunc_bounds v 32767 hb
  rw [← hix] at *
  omega

/-- C8: for a digit of the 12-key table with documented pair `(f1, f2)`,
`generate_dtmf_tone` returns `int(sampleRate*duration)` tone samples, the
`i`-th equal to the sum of the two sine waves at `(f1, f2)` scaled by
amplitude (sine idealised by the oracle `sine`), followed by
`int(sampleRate*gap)` zero samples, packed as 16-bit signed little-endian
PCM; and the function is deterministic: two calls with identical
parameters return identical bytes. -/
theorem C8_dtmf_tone_structure (sine : ℚ → ℚ) (digit : String)
    (f1 f2 sample_rate : Nat) (duration gap amplitude : ℚ)
    (hfreq : DTMF_FREQS digit = some (f1, f2))
    (hsine : ∀ x, |sine x| ≤ 1)
    (hamp0 : 0 ≤ amplitude) (hamp1 : amplitude ≤ 1) :
    generate_dtmf_tone sine digit sample_rate duration gap amplitude =
        pack16le (dtmfSamplesSpec sine f1 f2 sample_rate duration amplitude ++
          List.replicate (natTrunc ((sample_rate : ℚ) * gap)) 0) ∧
      unpackLE16 (generate_dtmf_tone sine digit sample_rate duration gap amplitude) =
        dtmfSamplesSpec sine f1 f2 sample_rate duration amplitude ++
          List.replicate (natTrunc ((sample_rate : ℚ) * gap)) 0 ∧
      (unpackLE16 (generate_dtmf_tone sine digit sample_rate duration gap amplitude)).length =
        natTrunc ((sample_rate : ℚ) * duration) + natTrunc ((sample_rate : ℚ) * gap) ∧
      ∀ sine2 digit2 rate2 dur2 gap2 amp2,
        sine2 = sine → digit2 = digit → rate2 = sample_rate → dur2 = duration →
        gap2 = gap → amp2 = amplitude →
        generate_dtmf_tone sine2 digit2 rate2 dur2 gap2 amp2 =
          generate_dtmf_tone sine digit sample_rate duration gap amplitude := by
  have hpack : generate_dtmf_tone sine digit sample_rate duration gap amplitude =
      pack16le (dtmfSamplesSpec sine f1 f2 sample_rate duration amplitude ++
        List.replicate (natTrunc ((sample_rate : ℚ) * gap)) 0) := by
    simp only [generate_dtmf_tone, hfreq, dtmfSamplesSpec]
  have hrange : ∀ x ∈ dtmfSamplesSpec sine f1 f2 sample_rate duration amplitude ++
      List.replicate (natTrunc ((sample_rate : ℚ) * gap)) 0,
      -32768 ≤ x ∧ x ≤ 32767 := by
    intro x hx
    rcases List.mem_append.mp hx with hx | hx
    · exact dtmfSamplesSpec_in_range sine f1 f2 sample_rate duration amplitude
        hsine hamp0 hamp1 x hx
    · have := List.eq_of_mem_replicate hx
      omega
  have hunpack : unpackLE16 (generate_dtmf_tone sine digit sample_rate duration gap amplitude) =
      dtmfSamplesSpec sine f1 f2 sample_rate duration amplitude ++
        List.replicate (natTrunc ((sample_rate : ℚ) * gap)) 0 := by
    rw [hpack]
    exact unpackLE16_pack16le _ hrange
  have hlen : (dtmfSamplesSpec sine f1 f2 sample_rate duration amplitude).length =
      natTrunc ((sample_rate : ℚ) * duration) := by
    unfold dtmfSamplesSpec
    rw [List.length_map, List.length_range]
  refine ⟨hpack, hunpack, ?_, ?_⟩
  · rw [hunpack, List.length_append, hlen, List.length_replicate]
  · intro sine2 digit2 rate2 dur2 gap2 amp2 h1 h2 h3 h4 h5 h6
    rw [h1, h2, h3, h4, h5, h6]

/-- Witness for C8 at digit "7", sample rate 8000, duration 0.25, gap 0.05,
amplitude 0.5, with the constant-zero sine oracle. -/
theorem C8_dtmf_tone_structure_witness :
    DTMF_FREQS "7" = some (852, 1209) ∧
      (∀ x : ℚ, |(fun _ : ℚ => (0 : ℚ)) x| ≤ 1) ∧
      (0 : ℚ) ≤ 1/2 ∧ (1/2 : ℚ) ≤ 1 ∧
      (generate_dtmf_tone (fun _ => 0) "7" 8000 (1/4) (1/20) (1/2) =
          pack16le (dtmfSamplesSpec (fun _ => 0) 852 1209 8000 (1/4) (1/2) ++
            List.replicate (natTrunc ((8000 : ℚ) * (1/20))) 0) ∧
        unpackLE16 (generate_dtmf_tone (fun _ => 0) "7" 8000 (1/4) (1/20) (1/2)) =
          dtmfSamplesSpec (fun _ => 0) 852 1209 8000 (1/4) (1/2) ++
            List.replicate (natTrunc ((8000 : ℚ) * (1/20))) 0 ∧
        (unpackLE16 (generate_dtmf_tone (fun _ => 0) "7" 8000 (1/4) (1/20) (1/2))).length =
          natTrunc ((8000 : ℚ) * (1/4)) + natTrunc ((8000 : ℚ) * (1/20)) ∧
        ∀ sine2 digit2 rate2 dur2 gap2 amp2,
          sine2 = (fun _ : ℚ => (0 : ℚ)) → digit2 = "7" → rate2 = 8000 → dur2 = 1/4 →
          gap2 = 1/20 → amp2 = 1/2 →
          generate_dtmf_tone sine2 digit2 rate2 dur2 gap2 amp2 =
            generate_dtmf_tone (fun _ => 0) "7" 8000 (1/4) (1/20) (1/2)) :=
  ⟨by decide, fun x => by norm_num, by norm_num, by norm_num,
    C8_dtmf_tone_structure (fun _ => 0) "7" 852 1209 8000 (1/4) (1/20) (1/2)
      (by decide) (fun x => by norm_num) (by norm_num) (by norm_num)⟩

/-- C9: for a digit outside the 12-key table, DTMF synthesis produces no
audio bytes and does not raise: both the PCM and the μ-law generator return
the empty byte string (the defined `UnknownDigit` outcome of the codec
layer, which stays local to the single operation). -/
theorem C9_unknown_digit_empty (sine : ℚ → ℚ) (digit : String)
    (sample_rate : Nat) (duration gap amplitude : ℚ)
    (h : digit ∉ dtmfKeys) :
    generate_dtmf_tone sine digit sample_rate duration gap amplitude = [] ∧
      generate_dtmf_tone_mulaw sine digit sample_rate duration gap amplitude = [] := by
  have hnone : DTMF_FREQS digit = none := by
    simp only [dtmfKeys, List.mem_cons, List.not_mem_nil, or_false, not_or] at h
    obtain ⟨h1, h2, h3, h4, h5, h6, h7, h8, h9, hstar, h0, hhash⟩ := h
    simp [DTMF_FREQS, h1, h2, h3, h4, h5, h6, h7, h8, h9, hstar, h0, hhash]
  have hpcm : generate_dtmf_tone sine digit sample_rate duration gap amplitude = [] := by
    simp [generate_dtmf_tone, hnone]
  exact ⟨hpcm, by simp [generate_dtmf_tone_mulaw, hpcm]⟩

/-- Witness for C9 at the invalid digit "A". -/
theorem C9_unknown_digit_empty_witness :
    ("A" : String) ∉ dtmfKeys ∧
      (generate_dtmf_tone (fun _ => 0) "A" 8000 (1/4) (1/20) (1/2) = [] ∧
        generate_dtmf_tone_mulaw (fun _ => 0) "A" 8000 (1/4) (1/20) (1/2) = []) :=
  ⟨by decide, C9_unknown_digit_empty (fun _ => 0) "A" 8000 (1/4) (1/20) (1/2) (by decide)⟩

/-! ### Twilio media-stream WebSocket handler (`main.twilio_media_stream`) -/

/-- An inbound Twilio stream event, after JSON parsing: the `event` field
with its event-specific payload.  `media` carries the base64 `payload`
string. -/
inductive TwEvent where
  | connected
  | start (streamSid : String)
  | media (payload : String)
  | stop

/-- The receive loop of `main.twilio_media_stream`, parametrised by the
base64 decoder `b64dec` (so `b64dec payload` is `base64.b64decode(payload)`).
Returns the chunks put on the session's audio queue, in order:
`connected`/`start` enqueue nothing, a `media` event with a non-empty
payload enqueues `base64.b64decode(payload)` as-is, and `stop` exits the
loop.  The handler's `finally` block then puts the `None` sentinel. -/
def tmsLoop (b64dec : String → List Nat) : List TwEvent → List (Option (List Nat))
  | [] => []
  | TwEvent.media p :: rest =>
    if p ≠ "" then some (b64dec p) :: tmsLoop b64dec rest else tmsLoop b64dec rest
  | TwEvent.stop :: _ => []
  | TwEvent.connected :: rest => tmsLoop b64dec rest
  | TwEvent.start _ :: rest => tmsLoop b64dec rest

/-- `main.twilio_media_stream` as observed through the session's audio
queue: loop over the events, then the `finally` sentinel. -/
def twilio_media_stream (b64dec : String → List Nat)
    (events : List TwEvent) : List (Option (List Nat)) :=
  tmsLoop b64dec events ++ [none]

/-- C1 (code bug): for an inbound `media` event the handler enqueues the
raw base64-decoded bytes without μ-law decoding.  With a payload decoding
to the single μ-law byte 0xFF, the queue receives `[255]` — raw μ-law —
whereas decoding to canonical PCM first (`mulaw_to_pcm_bytes`, which the
codec module documents as "call this at queue-insertion time so the queue
always holds slin16 PCM") would enqueue `[0, 0]`; the two differ, so the
segmenter measures energy on raw μ-law bytes, contradicting both the
specification and the codec module's own documentation. -/
theorem C1_media_enqueued_without_decode :
    twilio_media_stream (fun _ => [255]) [TwEvent.media "/w=="] =
        [some [255], none] ∧
      mulaw_to_pcm_bytes [255] = [0, 0] ∧
      ([255] : List Nat) ≠ [0, 0] := by
  refine ⟨rfl, ?_, by decide⟩
  decide

/-! ### Outbound audio to Twilio (`main._send_audio_to_twilio`) -/

/-- An outbound Twilio stream message: the `clear` control message, or a
`media` message whose payload is the base64 encoding of the given chunk
bytes (base64 being injective, the message is identified by the chunk). -/
inductive TwOutMsg where
  | clear
  | media (chunk : List Nat)
deriving DecidableEq

/-- The chunking loop `for i in range(0, len(b), 640): chunk = b[i:i+640]`,
with explicit fuel (sufficient when `fuel ≥ length`). -/
def chunksOfAux (k : Nat) : Nat → List Nat → List (List Nat)
  | 0, _ => []
  | _, [] => []
  | fuel + 1, l => l.take k :: chunksOfAux k fuel (l.drop k)

/-- Split a byte string into consecutive chunks of at most `k` bytes. -/
def chunksOf (k : Nat) (l : List Nat) : List (List Nat) :=
  chunksOfAux k l.length l

/-- `main._send_audio_to_twilio`: on a connected stream (ws handle and
stream sid both present), send one `clear` message, then the μ-law bytes
as `media` messages of at most `CHUNK_SIZE = 640` bytes, then sleep
`len(mulaw_bytes)/8000.0 + 0.3` seconds.  On a disconnected stream, return
immediately having sent nothing and slept not at all.  Returns the ordered
message list and the sleep duration. -/
def send_audio_to_twilio (connected : Bool) (mulaw_bytes : List Nat) :
    List TwOutMsg × ℚ :=
  if connected then
    (TwOutMsg.clear :: (chunksOf 640 mulaw_bytes).map TwOutMsg.media,
      (mulaw_bytes.length : ℚ) / 8000 + 3 / 10)
  else ([], 0)

lemma chunksOfAux_flatten (k : Nat) (hk : 0 < k) :
    ∀ fuel l, l.length ≤ fuel → (chunksOfAux k fuel l).flatten = l := by
  intro fuel
  induction fuel with
  | zero =>
    intro l hl
    have : l = [] := List.eq_nil_of_length_eq_zero (Nat.le_zero.mp hl)
    simp [this, chunksOfAux]
  | succ n ih =>
    intro l hl
    cases l with
    | nil => simp [chunksOfAux]
    | cons a t =>
      have hdrop : (List.drop k (a :: t)).length ≤ n := by
        rw [List.length_drop]
        simp only [List.length_cons] at hl ⊢
        omega
      simp only [chunksOfAux, List.flatten_cons, ih _ hdrop,
        List.take_append_drop]

lemma chunksOfAux_mem (k : Nat) (hk : 0 < k) :
    ∀ fuel l c, c ∈ chunksOfAux k fuel l → c ≠ [] ∧ c.length ≤ k := by
  intro fuel
  induction fuel with
  | zero => intro l c hc; simp [chunksOfAux] at hc
  | succ n ih =>
    intro l c hc
    cases l with
    | nil => simp [chunksOfAux] at hc
    | cons a t =>
      simp only [chunksOfAux, List.mem_cons] at hc
      rcases hc with hc | hc
      · subst hc
        refine ⟨?_, by simpa using List.length_take_le k (a :: t)⟩
        cases k with
        | zero => exact absurd hk (by omega)
        | succ m => simp [List.take_succ_cons]
      · exact ih _ _ hc

/-- C5: on a connected stream, `_send_audio_to_twilio` sends exactly one
`clear` control message first, then the utterance as in-order `media`
messages of at most 640 bytes each (every chunk non-empty), whose
concatenation is exactly the n μ-law bytes, and then waits
`n/8000 + 0.3` seconds before returning to the loop. -/
theorem C5_send_audio_framing (mulaw_bytes : List Nat) (connected : Bool)
    (hconn : connected = true) :
    (send_audio_to_twilio connected mulaw_bytes).1 =
        TwOutMsg.clear :: (chunksOf 640 mulaw_bytes).map TwOutMsg.media ∧
      ((send_audio_to_twilio connected mulaw_bytes).1.count TwOutMsg.clear = 1) ∧
      (∀ c ∈ chunksOf 640 mulaw_bytes, c ≠ [] ∧ c.length ≤ 640) ∧
      (chunksOf 640 mulaw_bytes).flatten = mulaw_bytes ∧
      (send_audio_to_twilio connected mulaw_bytes).2 =
        (mulaw_bytes.length : ℚ) / 8000 + 3 / 10 := by
  subst hconn
  refine ⟨by simp [send_audio_to_twilio], ?_, ?_, ?_, by simp [send_audio_to_twilio]⟩
  · simp only [send_audio_to_twilio, if_pos]
    rw [List.count_cons_self]
    have : (List.map TwOutMsg.media (chunksOf 640 mulaw_bytes)).count TwOutMsg.clear = 0 := by
      rw [List.count_eq_zero]
      intro h
      rcases List.mem_map.mp h with ⟨c, _, habs⟩
      exact TwOutMsg.noConfusion habs
    omega
  · exact fun c hc => chunksOfAux_mem 640 (by norm_num) _ _ c hc
  · exact chunksOfAux_flatten 640 (by norm_num) _ _ le_rfl

/-- Witness for C5 on a 1300-byte utterance (chunked 640/640/20) over a
connected stream. -/
theorem C5_send_audio_framing_witness :
    (true = true) ∧
      ((send_audio_to_twilio true (List.replicate 1300 7)).1 =
          TwOutMsg.clear ::
            (chunksOf 640 (List.replicate 1300 7)).map TwOutMsg.media ∧
        ((send_audio_to_twilio true (List.replicate 1300 7)).1.count TwOutMsg.clear = 1) ∧
        (∀ c ∈ chunksOf 640 (List.replicate 1300 7), c ≠ [] ∧ c.length ≤ 640) ∧
        (chunksOf 640 (List.replicate 1300 7)).flatten = List.replicate 1300 7 ∧
        (send_audio_to_twilio true (List.replicate 1300 7)).2 =
          ((List.replicate 1300 7 : List Nat).length : ℚ) / 8000 + 3 / 10) :=
  ⟨rfl, C5_send_audio_framing (List.replicate 1300 7) true rfl⟩

/-! ### Voice Activity Segmenter (`audio_utils.receive_speech`) -/

/-- `audio_utils.ENERGY_THRESHOLD`. -/
def ENERGY_THRESHOLD : ℚ := 40

/-- `audio_utils.SILENCE_DURATION` (seconds). -/
def SILENCE_DURATION : ℚ := 2

/-- `audio_utils.MAX_SPEECH_WAIT` (seconds). -/
def MAX_SPEECH_WAIT : ℚ := 45

/-- `audio_utils.MIN_SPEECH_BYTES` (0.4 s at 8 kHz, 16-bit). -/
def MIN_SPEECH_BYTES : Nat := 6400

/-- `audio_utils.chunk_energy`: average absolute sample amplitude of a
slin16 PCM chunk (`0.0` for a chunk of fewer than two bytes). -/
def chunk_energy (data : List Nat) : ℚ :=
  let samples := unpackLE16 data
  if samples.length = 0 then 0
  else (((samples.map fun s => |s|).sum : Int) : ℚ) / (samples.length : ℚ)

/-- One observed iteration of the `receive_speech` wait loop: either the
0.3 s poll timed out with nothing on the queue, or a chunk (or the `None`
sentinel) arrived.  `t` is the wall-clock instant (`time.time()`, with the
loop entry at time 0) at which the iteration observes the clock. -/
inductive RSEvent where
  | timeout (t : ℚ)
  | chunk (t : ℚ) (data : List Nat)
  | sentinel (t : ℚ)

/-- The clock reading of an iteration. -/
def RSEvent.time : RSEvent → ℚ
  | .timeout t => t
  | .chunk t _ => t
  | .sentinel t => t

/-- The wait loop of `audio_utils.receive_speech` over the observed
iterations, carrying `audio_buffer`, `speech_detected` and `silence_start`.
Per the source: the loop runs while `time.time() < deadline`; a poll
timeout re-checks the armed silence timer only; the sentinel breaks;
a chunk is appended to the buffer *before* its energy is measured, then
either marks speech (clearing the silence timer), or arms the timer, or —
when the armed timer has reached `silence_duration` — breaks.  Exhausting
the iteration list models the clock passing the deadline.  Returns the
buffer and the `speech_detected` flag. -/
def rsLoop (deadline silence_duration energy_threshold : ℚ) :
    List RSEvent → List Nat → Bool → Option ℚ → List Nat × Bool
  | [], buf, sd, _ => (buf, sd)
  | e :: rest, buf, sd, ss =>
    if e.time < deadline then
      match e with
      | .timeout t =>
        match sd, ss with
        | true, some s =>
          if t - s ≥ silence_duration then (buf, sd)
          else rsLoop deadline silence_duration energy_threshold rest buf sd ss
        | _, _ => rsLoop deadline silence_duration energy_threshold rest buf sd ss
      | .sentinel _ => (buf, sd)
      | .chunk t data =>
        if chunk_energy data > energy_threshold then
          rsLoop deadline silence_duration energy_threshold rest (buf ++ data) true none
        else if sd then
          match ss with
          | none =>
            rsLoop deadline silence_duration energy_threshold rest (buf ++ data) sd (some t)
          | some s =>
            if t - s ≥ silence_duration then (buf ++ data, sd)
            else rsLoop deadline silence_duration energy_threshold rest (buf ++ data) sd ss
        else rsLoop deadline silence_duration energy_threshold rest (buf ++ data) sd ss
    else (buf, sd)

/-- `audio_utils.receive_speech` with loop entry at time 0 (so the deadline
is the `timeout` parameter): run the wait loop, then discard the result
when no speech was detected or the buffer is shorter than
`MIN_SPEECH_BYTES`. -/
def receive_speech (events : List RSEvent)
    (timeout silence_duration energy_threshold : ℚ) : List Nat :=
  let r := rsLoop timeout silence_duration energy_threshold events [] false none
  if r.2 = false ∨ r.1.length < MIN_SPEECH_BYTES then [] else r.1

/-- A chunk above the threshold extends the buffer, marks speech, and
clears the silence timer. -/
lemma rsLoop_loud_step (deadline sdur thr t : ℚ) (d : List Nat)
    (rest : List RSEvent) (buf : List Nat) (sd : Bool) (ss : Option ℚ)
    (ht : t < deadline) (hd : thr < chunk_energy d) :
    rsLoop deadline sdur thr (RSEvent.chunk t d :: rest) buf sd ss =
      rsLoop deadline sdur thr rest (buf ++ d) true none := by
  simp only [rsLoop, RSEvent.time]
  rw [if_pos ht, if_pos hd]

/-- A below-threshold chunk after detected speech, with no timer armed,
extends the buffer and arms the silence timer. -/
lemma rsLoop_arm_step (deadline sdur thr t : ℚ) (d : List Nat)
    (rest : List RSEvent) (buf : List Nat)
    (ht : t < deadline) (hd : chunk_energy d ≤ thr) :
    rsLoop deadline sdur thr (RSEvent.chunk t d :: rest) buf true none =
      rsLoop deadline sdur thr rest (buf ++ d) true (some t) := by
  simp only [rsLoop, RSEvent.time]
  rw [if_pos ht, if_neg (not_lt.mpr hd)]
  simp

/-- Running the armed loop over below-threshold chunks that stay inside the
silence window, ended by one that reaches it: every one of those chunks is
appended to the buffer, and the loop exits at the confirming chunk with the
whole buffer. -/
lemma rsLoop_silent_tail (deadline sdur thr t1 : ℚ)
    (mids : List (ℚ × List Nat)) :
    ∀ (buf : List Nat) (tl : ℚ) (dl : List Nat),
      (∀ p ∈ mids, p.1 < deadline ∧ chunk_energy p.2 ≤ thr ∧ p.1 - t1 < sdur) →
      tl < deadline → chunk_energy dl ≤ thr → sdur ≤ tl - t1 →
      rsLoop deadline sdur thr
          (mids.map (fun p => RSEvent.chunk p.1 p.2) ++ [RSEvent.chunk tl dl])
          buf true (some t1) =
        (buf ++ (mids.map Prod.snd).flatten ++ dl, true) := by
  induction mids with
  | nil =>
    intro buf tl dl _ htl hdl hconf
    simp only [List.map_nil, List.nil_append, rsLoop, RSEvent.time]
    rw [if_pos htl, if_neg (not_lt.mpr hdl)]
    simp only [if_true]
    rw [if_pos hconf]
    simp
  | cons p rest ih =>
    intro buf tl dl hmids htl hdl hconf
    obtain ⟨hp1, hp2, hp3⟩ := hmids p (by simp)
    have hrest := fun q hq => hmids q (List.mem_cons_of_mem _ hq)
    simp only [List.map_cons, List.cons_append, rsLoop, RSEvent.time]
    rw [if_pos hp1, if_neg (not_lt.mpr hp2)]
    simp only [if_true]
    rw [if_neg (not_le.mpr hp3)]
    simp only [List.append_eq]
    rw [ih (buf ++ p.2) tl dl hrest htl hdl hconf]
    simp [List.append_assoc]

/-- The full turn scenario: one above-threshold chunk, then a below-threshold
chunk arming the silence timer, then below-threshold chunks inside the
window, then the confirming chunk.  The returned turn is the concatenation
of *all* chunks — the silent tail included — whenever it clears the
minimum-length filter. -/
lemma receive_speech_scenario (L d1 dl : List Nat) (t0 t1 tl : ℚ)
    (mids : List (ℚ × List Nat)) (timeout sdur thr : ℚ)
    (hL : thr < chunk_energy L) (ht0 : t0 < timeout) (ht1 : t1 < timeout)
    (hd1 : chunk_energy d1 ≤ thr)
    (hmids : ∀ p ∈ mids, p.1 < timeout ∧ chunk_energy p.2 ≤ thr ∧ p.1 - t1 < sdur)
    (htl : tl < timeout) (hdl : chunk_energy dl ≤ thr) (hconf : sdur ≤ tl - t1)
    (hlen : MIN_SPEECH_BYTES ≤ (L ++ d1 ++ (mids.map Prod.snd).flatten ++ dl).length) :
    receive_speech
        (RSEvent.chunk t0 L :: RSEvent.chunk t1 d1 ::
          (mids.map (fun p => RSEvent.chunk p.1 p.2) ++ [RSEvent.chunk tl dl]))
        timeout sdur thr =
      L ++ d1 ++ (mids.map Prod.snd).flatten ++ dl := by
  simp only [receive_speech]
  rw [rsLoop_loud_step timeout sdur thr t0 L _ [] false none ht0 hL]
  rw [rsLoop_arm_step timeout sdur thr t1 d1 _ ([] ++ L) ht1 hd1]
  rw [rsLoop_silent_tail timeout sdur thr t1 mids (([] ++ L) ++ d1) tl dl hmids htl hdl hconf]
  rw [if_neg]
  · simp [List.append_assoc]
  · intro h
    rcases h with h | h
    · exact Bool.noConfusion h
    · simp only [List.nil_append] at h
      rw [List.append_assoc, List.append_assoc] at h hlen
      omega

lemma unpackLE16_replicate_zero : ∀ n : Nat,
    unpackLE16 (List.replicate (2 * n) 0) = List.replicate n 0 := by
  intro n
  induction n with
  | zero => rfl
  | succ m ih =>
    have h2 : 2 * (m + 1) = (2 * m) + 1 + 1 := by omega
    rw [h2, List.replicate_succ, List.replicate_succ, unpackLE16_cons₂, ih,
      List.replicate_succ]
    congr 1

/-- A chunk of zero bytes has zero energy. -/
lemma chunk_energy_replicate_zero (n : Nat) :
    chunk_energy (List.replicate (2 * n) 0) = 0 := by
  simp only [chunk_energy, unpackLE16_replicate_zero]
  cases n with
  | zero => simp
  | succ m =>
    rw [if_neg (by simp)]
    simp

/-- C4 (counterexample): one above-threshold chunk (energy 100 > 40)
followed by below-threshold chunks spanning ≥ 2 s.  The returned turn is
the loud chunk *plus* every sub-threshold chunk received after silence
began — the claim's "not including" fails: the buffer is extended before
the silence check, so the silent tail is part of the turn. -/
theorem C4_counterexample_silent_tail_included :
    receive_speech
        [RSEvent.chunk 0 [100, 0], RSEvent.chunk (1/2) (List.replicate 6400 0),
          RSEvent.chunk 3 [0, 0]] 45 2 40 =
      [100, 0] ++ List.replicate 6400 0 ++ [0, 0] ∧
      [100, 0] ++ List.replicate 6400 0 ++ [0, 0] ≠ ([100, 0] : List Nat) := by
  constructor
  · have h := receive_speech_scenario [100, 0] (List.replicate 6400 0) [0, 0]
      0 (1/2) 3 [] 45 2 40
      (by norm_num [chunk_energy, unpackLE16, le16ToInt]) (by norm_num) (by norm_num)
      (by rw [show (6400 : Nat) = 2 * 3200 from rfl, chunk_energy_replicate_zero]
          norm_num)
      (by simp) (by norm_num)
      (by norm_num [chunk_energy, unpackLE16, le16ToInt]) (by norm_num)
      (by simp only [List.length_append, List.length_replicate, List.length_cons,
            List.length_nil, List.map_nil, List.flatten_nil, MIN_SPEECH_BYTES]
          omega)
    simp only [List.map_nil, List.flatten_nil, List.append_nil] at h
    exact h
  · intro h
    have hl := congrArg List.length h
    simp only [List.length_append, List.length_replicate, List.length_cons,
      List.length_nil] at hl
    omega

/-- C4 (amended): for a sequence with one above-threshold chunk followed by
below-threshold chunks spanning at least `silence_duration`,
`receive_speech` returns a turn containing exactly the buffered bytes up
to and *including* the point at which silence was confirmed: every
sub-threshold chunk received after silence began, the confirming chunk
included, is part of the returned turn (buffer append precedes the silence
check), provided the turn clears the `MIN_SPEECH_BYTES` filter. -/
theorem C4_turn_includes_silent_tail (L d1 dl : List Nat) (t0 t1 tl : ℚ)
    (mids : List (ℚ × List Nat)) (timeout sdur thr : ℚ)
    (hL : thr < chunk_energy L) (ht0 : t0 < timeout) (ht1 : t1 < timeout)
    (hd1 : chunk_energy d1 ≤ thr)
    (hmids : ∀ p ∈ mids, p.1 < timeout ∧ chunk_energy p.2 ≤ thr ∧ p.1 - t1 < sdur)
    (htl : tl < timeout) (hdl : chunk_energy dl ≤ thr) (hconf : sdur ≤ tl - t1)
    (hlen : MIN_SPEECH_BYTES ≤ (L ++ d1 ++ (mids.map Prod.snd).flatten ++ dl).length) :
    receive_speech
        (RSEvent.chunk t0 L :: RSEvent.chunk t1 d1 ::
          (mids.map (fun p => RSEvent.chunk p.1 p.2) ++ [RSEvent.chunk tl dl]))
        timeout sdur thr =
      L ++ d1 ++ (mids.map Prod.snd).flatten ++ dl :=
  receive_speech_scenario L d1 dl t0 t1 tl mids timeout sdur thr
    hL ht0 ht1 hd1 hmids htl hdl hconf hlen

/-- Witness for the amended C4 on a concrete run: a loud two-byte chunk
(energy 100) at t = 0, an arming silent chunk of 6400 zero bytes at
t = 0.5, and a confirming two-byte silent chunk at t = 3 (2.5 s ≥ 2 s of
silence). -/
theorem C4_turn_includes_silent_tail_witness :
    (40 : ℚ) < chunk_energy [100, 0] ∧
      (0 : ℚ) < 45 ∧ (1/2 : ℚ) < 45 ∧
      chunk_energy (List.replicate 6400 0) ≤ 40 ∧
      (∀ p ∈ ([] : List (ℚ × List Nat)),
        p.1 < (45 : ℚ) ∧ chunk_energy p.2 ≤ 40 ∧ p.1 - 1/2 < (2 : ℚ)) ∧
      (3 : ℚ) < 45 ∧ chunk_energy [0, 0] ≤ 40 ∧ (2 : ℚ) ≤ 3 - 1/2 ∧
      MIN_SPEECH_BYTES ≤
        (([100, 0] : List Nat) ++ List.replicate 6400 0 ++
          ((([] : List (ℚ × List Nat)).map Prod.snd).flatten) ++ [0, 0]).length ∧
      receive_speech
          (RSEvent.chunk 0 [100, 0] :: RSEvent.chunk (1/2) (List.replicate 6400 0) ::
            (([] : List (ℚ × List Nat)).map (fun p => RSEvent.chunk p.1 p.2) ++
              [RSEvent.chunk 3 [0, 0]])) 45 2 40 =
        ([100, 0] : List Nat) ++ List.replicate 6400 0 ++
          ((([] : List (ℚ × List Nat)).map Prod.snd).flatten) ++ [0, 0] := by
  have hd1 : chunk_energy (List.replicate 6400 0) ≤ 40 := by
    rw [show (6400 : Nat) = 2 * 3200 from rfl, chunk_energy_replicate_zero]
    norm_num
  have hL : (40 : ℚ) < chunk_energy [100, 0] := by
    norm_num [chunk_energy, unpackLE16, le16ToInt]
  have hdl : chunk_energy [0, 0] ≤ 40 := by
    norm_num [chunk_energy, unpackLE16, le16ToInt]
  have hlen : MIN_SPEECH_BYTES ≤
      (([100, 0] : List Nat) ++ List.replicate 6400 0 ++
        ((([] : List (ℚ × List Nat)).map Prod.snd).flatten) ++ [0, 0]).length := by
    simp only [List.length_append, List.length_replicate, List.length_cons,
      List.length_nil, List.map_nil, List.flatten_nil, MIN_SPEECH_BYTES]
    omega
  refine ⟨hL, by norm_num, by norm_num, hd1, by simp, by norm_num,
    hdl, by norm_num, hlen, ?_⟩
  exact C4_turn_includes_silent_tail [100, 0] (List.replicate 6400 0) [0, 0]
    0 (1/2) 3 [] 45 2 40
    hL (by norm_num) (by norm_num) hd1 (by simp) (by norm_num)
    hdl (by norm_num) hlen

/-! ### Real-call conversation loop (`main._run_call_real`) -/

/-- `schemas.ActionType`. -/
inductive ActionType where
  | speak
  | dtmf
  | wait
  | end_call
deriving DecidableEq

/-- `schemas.CallStatus`.  The turn loop sets `completed` after its `break`;
`in_progress` stands for a loop still running (used when the modelled
round list is exhausted). -/
inductive CallStatus where
  | idle
  | initiating
  | ringing
  | in_progress
  | completed
  | failed
deriving DecidableEq

/-- `schemas.AgentAction` (optional strings modelled with `""` for `None`,
matching the code's `speech_text or ""` read). -/
structure AgentAction where
  action_type : ActionType
  speech_text : String
  dtmf_digits : String
  reasoning : String

/-- One round of the conversation loop, as observed at the boundaries to
the segmenter, STT, and the action agent: either `receive_speech` returned
empty bytes, or it returned speech whose transcript and decided action are
carried by the round. -/
inductive RoundInput where
  | noSpeech
  | speech (transcript : String) (action : AgentAction)

/-- `MAX_SILENT_ROUNDS` of `main._run_call_real`. -/
def MAX_SILENT_ROUNDS : Nat := 3

/-- Python `str.strip()`: drop whitespace from both ends (spelled out over
the character list so that it evaluates). -/
def pyStrip (s : String) : String :=
  String.mk (((s.data.dropWhile Char.isWhitespace).reverse.dropWhile
    Char.isWhitespace).reverse)

/-- The filler prompt sent after a silent round. -/
def nudgeText : String :=
  "Hello? Are you still there? I am an AI assistant calling on behalf of a patient. Could you please respond?"

/-- Observable outcome of the conversation loop: the session status after
the loop, the μ-law payloads handed to `_send_audio_to_twilio` in order,
the `conversation_log` entries `(speaker, text)` appended, and the final
`turn_count`. -/
structure ConvResult where
  status : CallStatus
  sent : List (List Nat)
  log : List (String × String)
  turns : Nat
deriving DecidableEq

/-- The conversation loop of `main._run_call_real`, parametrised by the
text-to-speech function `tts` (the μ-law bytes of
`tts_service.text_to_speech_for_twilio`).  State: `silent_rounds` and
`turn_count`.  Per the source: an empty `receive_speech` result increments
`silent_rounds` and ends the call (status `COMPLETED`) at
`MAX_SILENT_ROUNDS`, otherwise sends the filler prompt and continues;
detected speech resets `silent_rounds` to 0 *before* the transcript length
check; a transcript shorter than 2 characters (after strip) is skipped;
otherwise the turn is logged and the decided action dispatched — `speak`
and `end_call` send TTS audio when text is present, `dtmf` only logs
`[Pressed <digits>]` ("DTMF not yet supported in real calls") and sends
nothing, `wait` sends nothing; `end_call` breaks the loop. -/
def convLoop (tts : String → List Nat) :
    List RoundInput → Nat → Nat → ConvResult
  | [], _, turns => ⟨CallStatus.in_progress, [], [], turns⟩
  | RoundInput.noSpeech :: rest, silent_rounds, turns =>
    let sr := silent_rounds + 1
    if sr ≥ MAX_SILENT_ROUNDS then ⟨CallStatus.completed, [], [], turns⟩
    else
      let r := convLoop tts rest sr (turns + 1)
      ⟨r.status, tts nudgeText :: r.sent, ("agent", nudgeText) :: r.log, r.turns⟩
  | RoundInput.speech transcript action :: rest, _, turns =>
    if transcript = "" ∨ (pyStrip transcript).length < 2 then
      convLoop tts rest 0 turns
    else
      let round : List (List Nat) × String :=
        match action.action_type with
        | ActionType.speak | ActionType.end_call =>
          (if action.speech_text ≠ "" then [tts action.speech_text] else [],
            action.speech_text)
        | ActionType.dtmf => ([], "[Pressed " ++ action.dtmf_digits ++ "]")
        | ActionType.wait => ([], "[Waiting: " ++ action.reasoning ++ "]")
      if action.action_type = ActionType.end_call then
        ⟨CallStatus.completed, round.1,
          [("other_party", transcript), ("agent", round.2)], turns + 2⟩
      else
        let r := convLoop tts rest 0 (turns + 2)
        ⟨r.status, round.1 ++ r.sent,
          ("other_party", transcript) :: ("agent", round.2) :: r.log, r.turns⟩

/-- C6: in the turn loop, every "no speech" round increments the
silence-round counter; at the cap of 3 the session transitions to
`COMPLETED` with no further turns (the remaining rounds are never
consumed); below the cap the filler prompt is synthesized and sent and the
loop continues; and a round with detected speech resets the counter to 0 —
witnessed end-to-end by two silent rounds, a speech round, and then three
more silent rounds being required to complete. -/
theorem C6_silence_round_cap (tts : String → List Nat) (tr : String)
    (act : AgentAction) (rest : List RoundInput)
    (htr1 : tr ≠ "") (htr2 : 2 ≤ (pyStrip tr).length)
    (hact : act.action_type = ActionType.speak) :
    convLoop tts
        ([RoundInput.noSpeech, RoundInput.noSpeech, RoundInput.speech tr act,
          RoundInput.noSpeech, RoundInput.noSpeech, RoundInput.noSpeech] ++ rest)
        0 0 =
      ⟨CallStatus.completed,
        tts nudgeText :: tts nudgeText ::
          ((if act.speech_text ≠ "" then [tts act.speech_text] else []) ++
            [tts nudgeText, tts nudgeText]),
        ("agent", nudgeText) :: ("agent", nudgeText) :: ("other_party", tr) ::
          ("agent", act.speech_text) :: ("agent", nudgeText) ::
          ("agent", nudgeText) :: [], 6⟩ := by
  have hne : ¬(tr = "" ∨ (pyStrip tr).length < 2) := by
    push_neg
    exact ⟨htr1, by omega⟩
  simp [convLoop, MAX_SILENT_ROUNDS, hne, hact]

/-- Witness for C6: concrete six-round run completing at the third
consecutive silent round after a reset. -/
theorem C6_silence_round_cap_witness :
    ("yes it is" ≠ "") ∧ 2 ≤ (pyStrip "yes it is").length ∧
      (AgentAction.mk ActionType.speak "ok" "" "").action_type = ActionType.speak ∧
      convLoop (fun _ => [1])
          ([RoundInput.noSpeech, RoundInput.noSpeech,
            RoundInput.speech "yes it is" (AgentAction.mk ActionType.speak "ok" "" ""),
            RoundInput.noSpeech, RoundInput.noSpeech, RoundInput.noSpeech] ++ [])
          0 0 =
        ⟨CallStatus.completed,
          [1] :: [1] ::
            ((if (AgentAction.mk ActionType.speak "ok" "" "").speech_text ≠ ""
              then [(fun _ : String => ([1] : List Nat)) "ok"] else []) ++
              [[1], [1]]),
          ("agent", nudgeText) :: ("agent", nudgeText) :: ("other_party", "yes it is") ::
            ("agent", "ok") :: ("agent", nudgeText) :: ("agent", nudgeText) :: [], 6⟩ :=
  ⟨by decide, by decide, rfl,
    C6_silence_round_cap (fun _ => [1]) "yes it is"
      (AgentAction.mk ActionType.speak "ok" "" "") []
      (by decide) (by decide) rfl⟩

/-- Length of a packed sample list: two bytes per sample. -/
lemma pack16le_length (l : List Int) : (pack16le l).length = 2 * l.length := by
  induction l with
  | nil => rfl
  | cons x t ih =>
    rw [pack16le_cons, List.length_append, ih]
    simp only [intToLE16, List.length_cons, List.length_nil]
    omega

/-- Length of an unpacked byte string: one sample per byte pair, a trailing
odd byte dropped. -/
lemma unpackLE16_length : ∀ l : List Nat, (unpackLE16 l).length = l.length / 2
  | [] => by simp [unpackLE16.eq_def]
  | [a] => by simp [unpackLE16.eq_def]
  | lo :: hi :: rest => by
    show (le16ToInt lo hi :: unpackLE16 rest).length = (lo :: hi :: rest).length / 2
    simp only [List.length_cons]
    rw [unpackLE16_length rest]
    omega

/-- The synthesized "7" tone at the loop's wire format is non-empty. -/
lemma dtmf7_tone_nonempty (sine : ℚ → ℚ) :
    generate_dtmf_tone_mulaw sine "7" 8000 (1/4) (1/20) (1/2) ≠ [] := by
  have hfreq : DTMF_FREQS "7" = some (852, 1209) := by decide
  have htone : natTrunc (((8000 : Nat) : ℚ) * (1/4)) = 2000 := by
    unfold natTrunc intTrunc
    rw [if_pos (by norm_num : (0 : ℚ) ≤ ((8000 : Nat) : ℚ) * (1/4))]
    rw [show ((8000 : Nat) : ℚ) * (1/4) = ((2000 : Nat) : ℚ) by norm_num,
      Int.floor_natCast]
    rfl
  have hgap : natTrunc (((8000 : Nat) : ℚ) * (1/20)) = 400 := by
    unfold natTrunc intTrunc
    rw [if_pos (by norm_num : (0 : ℚ) ≤ ((8000 : Nat) : ℚ) * (1/20))]
    rw [show ((8000 : Nat) : ℚ) * (1/20) = ((400 : Nat) : ℚ) by norm_num,
      Int.floor_natCast]
    rfl
  have hpcmlen : (generate_dtmf_tone sine "7" 8000 (1/4) (1/20) (1/2)).length = 4800 := by
    simp only [generate_dtmf_tone, hfreq, pack16le_length, List.length_append,
      List.length_map, List.length_range, List.length_replicate, htone, hgap]
  have hpcm : generate_dtmf_tone sine "7" 8000 (1/4) (1/20) (1/2) ≠ [] := by
    intro habs
    rw [habs] at hpcmlen
    simp at hpcmlen
  have hmulen :
      (generate_dtmf_tone_mulaw sine "7" 8000 (1/4) (1/20) (1/2)).length = 2400 := by
    simp only [generate_dtmf_tone_mulaw, if_neg hpcm, List.length_map]
    rw [unpackLE16_length, hpcmlen]
  intro habs
  rw [habs] at hmulen
  simp at hmulen

/-- C7 (counterexample): in the real-call loop a `dtmf` decision with
digits "7" sends *no* outbound audio — the loop only logs
`[Pressed 7]` ("DTMF not yet supported in real calls") — while the
DTMF synthesizer would produce a non-empty μ-law tone; the sent-audio list
is empty rather than equal to the synthesized tone. -/
theorem C7_counterexample_dtmf_sends_nothing :
    (convLoop (fun _ => [1])
        [RoundInput.speech "press seven for pharmacy"
          (AgentAction.mk ActionType.dtmf "" "7" "")] 0 0).sent = [] ∧
      (convLoop (fun _ => [1])
        [RoundInput.speech "press seven for pharmacy"
          (AgentAction.mk ActionType.dtmf "" "7" "")] 0 0).log =
        [("other_party", "press seven for pharmacy"), ("agent", "[Pressed 7]")] ∧
      generate_dtmf_tone_mulaw (fun _ => 0) "7" 8000 (1/4) (1/20) (1/2) ≠ [] := by
  refine ⟨?_, ?_, dtmf7_tone_nonempty (fun _ => 0)⟩ <;> decide

/-- C7 (amended): when the decision engine returns action type `dtmf` with
digits d in real-call mode, the loop sends no audio at all for that turn —
DTMF synthesis is not wired into real calls — records the display text
`[Pressed d]`, and continues; no speech text is spoken. -/
theorem C7_dtmf_round_sends_no_audio (tts : String → List Nat) (tr : String)
    (act : AgentAction) (rest : List RoundInput) (sr turns : Nat)
    (htr1 : tr ≠ "") (htr2 : 2 ≤ (pyStrip tr).length)
    (hact : act.action_type = ActionType.dtmf) :
    (convLoop tts (RoundInput.speech tr act :: rest) sr turns).sent =
        (convLoop tts rest 0 (turns + 2)).sent ∧
      (convLoop tts (RoundInput.speech tr act :: rest) sr turns).log =
        ("other_party", tr) :: ("agent", "[Pressed " ++ act.dtmf_digits ++ "]") ::
          (convLoop tts rest 0 (turns + 2)).log ∧
      (convLoop tts (RoundInput.speech tr act :: rest) sr turns).status =
        (convLoop tts rest 0 (turns + 2)).status := by
  have hne : ¬(tr = "" ∨ (pyStrip tr).length < 2) := by
    push_neg
    exact ⟨htr1, by omega⟩
  refine ⟨?_, ?_, ?_⟩ <;> simp [convLoop, hne, hact]

/-- Witness for the amended C7 on a concrete one-round run. -/
theorem C7_dtmf_round_sends_no_audio_witness :
    ("press seven" ≠ "") ∧ 2 ≤ (pyStrip "press seven").length ∧
      (AgentAction.mk ActionType.dtmf "" "7" "").action_type = ActionType.dtmf ∧
      ((convLoop (fun _ => [1])
          (RoundInput.speech "press seven" (AgentAction.mk ActionType.dtmf "" "7" "") :: [])
          0 0).sent =
        (convLoop (fun _ => [1]) [] 0 (0 + 2)).sent ∧
      (convLoop (fun _ => [1])
          (RoundInput.speech "press seven" (AgentAction.mk ActionType.dtmf "" "7" "") :: [])
          0 0).log =
        ("other_party", "press seven") :: ("agent", "[Pressed " ++ "7" ++ "]") ::
          (convLoop (fun _ => [1]) [] 0 (0 + 2)).log ∧
      (convLoop (fun _ => [1])
          (RoundInput.speech "press seven" (AgentAction.mk ActionType.dtmf "" "7" "") :: [])
          0 0).status =
        (convLoop (fun _ => [1]) [] 0 (0 + 2)).status) :=
  ⟨by decide, by decide, rfl,
    C7_dtmf_round_sends_no_audio (fun _ => [1]) "press seven"
      (AgentAction.mk ActionType.dtmf "" "7" "") [] 0 0
      (by decide) (by decide) rfl⟩

end ZeusAI
